import Mathlib

/-!
Shallow embedding of the EmuS4Tutorials notebooks: configuration
dictionaries, the per-wavelength evaluators, the parallel sweep drivers,
the circular-dichroism reduction, the metadata round trip
(`str` then `ast.literal_eval`), and the timestamped output-filename
builders.  The external electromagnetic solvers (S4 and EMUstack) are
abstracted as function parameters; everything the notebooks themselves
compute is translated directly from the sources.
-/

namespace EmuS4

/-- Numpy `np.linspace(a, b, n)` over exact rationals: `n` evenly spaced
samples from `a` to `b`, endpoint included.  For `n = 1` the rational
convention `x / 0 = 0` makes the formula collapse to `[a]`, matching
numpy. -/
def linspace (a b : ℚ) (n : ℕ) : List ℚ :=
  (List.range n).map (fun i : ℕ => a + (b - a) * (i : ℚ) / ((n : ℚ) - 1))

/-- Sweep configuration: the `light` dictionary entries that define the
wavelength and angle axes (`wl_min`, `wl_max`, `n_wl`, `theta_min`,
`theta_max`, `n_theta`, `phi`). -/
structure SweepCfg where
  wl_min : ℚ
  wl_max : ℚ
  n_wl : ℕ
  theta_min : ℚ
  theta_max : ℚ
  n_theta : ℕ
  phi : ℚ
deriving DecidableEq

/-- Auxiliary wavelength vector
`v_wl = np.linspace(light['wl_min'], light['wl_max'], light['n_wl'])`. -/
def v_wl (cfg : SweepCfg) : List ℚ :=
  linspace cfg.wl_min cfg.wl_max cfg.n_wl

/-- Angle vector
`v_theta = np.linspace(light['theta_min'], light['theta_max'], light['n_theta'])`. -/
def v_theta (cfg : SweepCfg) : List ℚ :=
  linspace cfg.theta_min cfg.theta_max cfg.n_theta

/-- Per-wavelength evaluator `rta(wl)` of the S4 spectra notebook.  The
external solver is abstracted by `flux wl = (forw_1, back_1, forw_2)`, the
power fluxes that `S.GetPowerFlux` reports on layers `Inc` and `Sub` for
that wavelength; the notebook then computes `R = np.abs(back_1/forw_1)`,
`T = np.abs(forw_2/forw_1)` and `A = 1 - R - T`. -/
def rta (flux : ℚ → ℚ × ℚ × ℚ) (wl : ℚ) : ℚ × ℚ × ℚ :=
  let f := flux wl
  let R := |f.2.1 / f.1|
  let T := |f.2.2 / f.1|
  (R, T, 1 - R - T)

/-- Result list of `list(executor.map(rta, v_wl))` in the S4 spectra
notebook: one `(R, T, A)` triple per wavelength, in input order. -/
def s4SpectraResults (flux : ℚ → ℚ × ℚ × ℚ) (cfg : SweepCfg) :
    List (ℚ × ℚ × ℚ) :=
  (v_wl cfg).map (rta flux)

/-- Unzips a list of triples into three lists: the notebook transposes
with `np.array(list(...)).T` and destructures into `v_R, v_T, v_A`. -/
def unzip3 : List (ℚ × ℚ × ℚ) → List ℚ × List ℚ × List ℚ
  | [] => ([], [], [])
  | (r, t, a) :: rest =>
    let u := unzip3 rest
    (r :: u.1, t :: u.2.1, a :: u.2.2)

/-- Arrays `v_R, v_T, v_A` produced by the S4 spectra driver. -/
def s4Sweep (flux : ℚ → ℚ × ℚ × ℚ) (cfg : SweepCfg) :
    List ℚ × List ℚ × List ℚ :=
  unzip3 (s4SpectraResults flux cfg)

/-- Scattering data of one solved EMUstack `Stack` after
`stack.calc_scat(pol = pol)`: the lists `stack.a_list`, `stack.t_list` and
`stack.r_list` that `rta_spectra` reads. -/
structure ScatData where
  aList : List ℚ
  tList : List ℚ
  rList : List ℚ

/-- EMUstack postprocessing function `rta_spectra(stacks_list, pol)` from
the EMU spectra notebook, translated clause by clause: it concatenates the
per-stack `a_list`, `t_list`, `r_list`, sets
`layers_steps = len(stacks_list[0].layers) - 1`, and extracts
`a_tot[i] = a_list[layers_steps-1+(i*layers_steps)]` (likewise for `t`)
and `r_tot[i] = r_list[i]`.  The external solver state is abstracted by
`scat` (the lists a stack exposes for a polarization) and `nlayers`
(`len(stack.layers)`).  Python list indexing `xs[i]` is rendered by
`List.getD`; it is in range in every theorem below.  An empty
`stacks_list` would raise in Python; the `[]` branch of `layers_steps`
is never exercised. -/
def rta_spectra {σ : Type} (nlayers : σ → ℕ) (scat : σ → String → ScatData)
    (stacks_list : List σ) (pol : String) : List ℚ × List ℚ × List ℚ :=
  let a_list := stacks_list.flatMap (fun s => (scat s pol).aList)
  let t_list := stacks_list.flatMap (fun s => (scat s pol).tList)
  let r_list := stacks_list.flatMap (fun s => (scat s pol).rList)
  let layers_steps := match stacks_list with
    | [] => 0
    | s :: _ => nlayers s - 1
  let a_tot := (List.range stacks_list.length).map
    (fun i => a_list.getD (layers_steps - 1 + i * layers_steps) 0)
  let t_tot := (List.range stacks_list.length).map
    (fun i => t_list.getD (layers_steps - 1 + i * layers_steps) 0)
  let r_tot := (List.range stacks_list.length).map (fun i => r_list.getD i 0)
  (r_tot, t_tot, a_tot)

/-- Elementwise circular-dichroism combination
`(v_X_l - v_X_r) / (v_X_l + v_X_r)` of the wavelength-angle driver.  At an
index where the denominator vanishes the numpy quotient is undefined (the
elementwise division signals a floating-point error and yields a
non-finite value); that case is modelled as `none`. -/
def cdQuot (l r : ℚ) : Option ℚ :=
  if l + r = 0 then none else some ((l - r) / (l + r))

/-- Vector form of the derived quantities `v_R_cd`, `v_T_cd`, `v_A_cd`:
the elementwise combination of the two circular-polarization arrays. -/
def cdVec (vl vr : List ℚ) : List (Option ℚ) :=
  List.zipWith cdQuot vl vr

/-- One data row of the text table written by the wavelength-angle driver:
`wl, theta, phi` followed by the fifteen spectral entries of the row
format string (TE, TM, CD, R-circular and L-circular groups). -/
structure ThetaRow where
  wl : ℚ
  theta : ℚ
  phi : ℚ
  rte : ℚ
  tte : ℚ
  ate : ℚ
  rtm : ℚ
  ttm : ℚ
  atm : ℚ
  rcd : Option ℚ
  tcd : Option ℚ
  acd : Option ℚ
  rrc : ℚ
  trc : ℚ
  arc : ℚ
  rlc : ℚ
  tlc : ℚ
  alc : ℚ

/-- Data rows written by the combined wavelength-angle driver: the outer
loop runs over `v_theta`; for each angle it simulates one stack per
wavelength (`executor.map(simulate_stack, light_list)`), evaluates
`rta_spectra` for the four polarizations, forms the CD vectors, and then
writes one row per wavelength (`for i_wl, wl in enumerate(v_wl)`). -/
def emuThetaRows {σ : Type} (nlayers : σ → ℕ) (scat : σ → String → ScatData)
    (simulate : ℚ → ℚ → σ) (cfg : SweepCfg) : List ThetaRow :=
  (v_theta cfg).flatMap (fun theta =>
    let stacks_list := (v_wl cfg).map (simulate theta)
    let te := rta_spectra nlayers scat stacks_list "TE"
    let tm := rta_spectra nlayers scat stacks_list "TM"
    let rc := rta_spectra nlayers scat stacks_list "R Circ"
    let lc := rta_spectra nlayers scat stacks_list "L Circ"
    let vRcd := cdVec lc.1 rc.1
    let vTcd := cdVec lc.2.1 rc.2.1
    let vAcd := cdVec lc.2.2 rc.2.2
    (List.range (v_wl cfg).length).map (fun i =>
      { wl := (v_wl cfg).getD i 0
        theta := theta
        phi := cfg.phi
        rte := te.1.getD i 0, tte := te.2.1.getD i 0, ate := te.2.2.getD i 0
        rtm := tm.1.getD i 0, ttm := tm.2.1.getD i 0, atm := tm.2.2.getD i 0
        rcd := vRcd.getD i none, tcd := vTcd.getD i none, acd := vAcd.getD i none
        rrc := rc.1.getD i 0, trc := rc.2.1.getD i 0, arc := rc.2.2.getD i 0
        rlc := lc.1.getD i 0, tlc := lc.2.1.getD i 0, alc := lc.2.2.getD i 0 }))

/-- Semantics of `list(executor.map(f, xs))` with fallible workers: the
results are gathered in input order and a raised exception propagates to
the caller when results are collected, so no result list is delivered. -/
def mapExcept {α β ε : Type} (f : α → Except ε β) : List α → Except ε (List β)
  | [] => Except.ok []
  | x :: xs =>
    match f x with
    | Except.error e => Except.error e
    | Except.ok y =>
      match mapExcept f xs with
      | Except.error e => Except.error e
      | Except.ok ys => Except.ok (y :: ys)

/-- S4 spectra driver with a fallible per-wavelength evaluator: the sweep
either delivers the whole result list or the raised exception. -/
def s4DriverE {ε : Type} (rtaE : ℚ → Except ε (ℚ × ℚ × ℚ)) (cfg : SweepCfg) :
    Except ε (List (ℚ × ℚ × ℚ)) :=
  mapExcept rtaE (v_wl cfg)

/-- EMU spectra driver with a fallible `simulate_stack`: the stack list is
gathered first (`list(executor.map(simulate_stack, light_list))`), then
`rta_spectra` postprocesses it.  A worker exception aborts the run before
any spectra are produced. -/
def emuDriverE {σ ε : Type} (nlayers : σ → ℕ) (scat : σ → String → ScatData)
    (simulateE : ℚ → Except ε σ) (cfg : SweepCfg) (pol : String) :
    Except ε (List ℚ × List ℚ × List ℚ) :=
  match mapExcept simulateE (v_wl cfg) with
  | Except.error e => Except.error e
  | Except.ok stacks_list => Except.ok (rta_spectra nlayers scat stacks_list pol)

/-- Local-field function `lf(stack, pol, z, n_points, lay_interest)` of
the EMU local-field notebook.  `interp` abstracts
`plotting.fields_interpolator_in_plane` together with the preceding
`stack.calc_scat(pol = pol)`: applied to the stack, the polarization, the
layer of interest and the height it returns the `AbsE` interpolator.  The
body reassigns `n_points = 500` and passes `lay_interest=1` literally, so
both parameters are dead; the grid runs over `x` in `linspace(0, 1, 500)`
and `y` in `linspace(-(nd_period_y/nd_period_x), 0, 500)`, and the flat
interpolated vector is reshaped to `(500, 500)` and transposed, so row
`iy` holds `AbsE(x_ix, y_iy)` for `ix = 0 .. 499`. -/
def lf {σ : Type} (interp : σ → String → ℕ → ℚ → ℚ → ℚ → ℚ)
    (period_x period_y : ℚ) (stack : σ) (pol : String) (z : ℚ)
    (n_points : ℕ) (lay_interest : ℕ) : List (List ℚ) :=
  let absE := interp stack pol 1 z
  let n := 500
  let v_x := linspace 0 1 n
  let v_y := linspace (-(period_y / period_x)) 0 n
  v_y.map (fun y => v_x.map (fun x => absE x y))

/-- Character codes (Unicode code points) of a string literal; Python text
is modelled throughout as a list of code points. -/
def codes (s : String) : List ℕ := s.toList.map Char.toNat

/-- Code of a decimal digit. -/
def digitCode (d : ℕ) : ℕ := 48 + d

/-- Digit test on a code point. -/
def isDigitCode (c : ℕ) : Bool := 48 ≤ c && c ≤ 57

/-- Digit denoted by a digit code. -/
def codeDigit (c : ℕ) : ℕ := c - 48

/-- Decimal form of a Python float exactly as `repr` prints it in the
plain (non-scientific) range the notebooks use: optional sign, integer
digits, a dot (code 46), fractional digits — for example `400.0`, `0.15`. -/
structure PyFloat where
  neg : Bool
  ip : List ℕ
  fp : List ℕ
deriving DecidableEq

/-- Primitive Python values appearing in the configuration dictionaries. -/
inductive PyPrim where
  | int (neg : Bool) (ds : List ℕ)
  | float (f : PyFloat)
  | bool (b : Bool)
  | str (s : List ℕ)
deriving DecidableEq

/-- Values of a configuration dictionary: a primitive or a flat list of
primitives (such as `light['pol'] = [0.0, 1.0]`). -/
inductive PyVal where
  | prim (p : PyPrim)
  | list (ps : List PyPrim)
deriving DecidableEq

/-- Configuration dictionary: string keys in insertion order mapped to
values, the shape of the `light`, `struct`, `s4` and `emu` dictionaries. -/
abbrev PyDict := List (List ℕ × PyVal)

/-- Digit codes of a digit list. -/
def reprDigits (ds : List ℕ) : List ℕ := ds.map digitCode

/-- Python `repr` of a primitive (used by `str` of a dict for every
entry): plain digits with optional minus (code 45) for ints, the
decimal-dot form for floats, `True` or `False` for booleans, and the text
between two single quotes (code 39) for strings. -/
def reprPrim : PyPrim → List ℕ
  | PyPrim.int neg ds => (if neg then [45] else []) ++ reprDigits ds
  | PyPrim.float f =>
      (if f.neg then [45] else []) ++ reprDigits f.ip ++ [46] ++ reprDigits f.fp
  | PyPrim.bool true => codes "True"
  | PyPrim.bool false => codes "False"
  | PyPrim.str s => 39 :: s ++ [39]

/-- Comma-and-space separated concatenation, as Python joins dict entries
and list elements. -/
def commaSep : List (List ℕ) → List ℕ
  | [] => []
  | [x] => x
  | x :: xs => x ++ [44, 32] ++ commaSep xs

/-- Python `repr` of a value: a primitive, or elements between square
brackets (codes 91, 93). -/
def reprVal : PyVal → List ℕ
  | PyVal.prim p => reprPrim p
  | PyVal.list ps => 91 :: commaSep (ps.map reprPrim) ++ [93]

/-- One `'key': value` entry of the dict text (colon 58, space 32). -/
def reprEntry (kv : List ℕ × PyVal) : List ℕ :=
  reprPrim (PyPrim.str kv.1) ++ [58, 32] ++ reprVal kv.2

/-- Python `str(d)` of a configuration dictionary, the text attached to
the output attrs: entries between braces (codes 123, 125). -/
def strDict (d : PyDict) : List ℕ :=
  123 :: commaSep (d.map reprEntry) ++ [125]

/-- Digit-run scanner: consumes the maximal leading run of digit codes. -/
def parseDigits : List ℕ → List ℕ × List ℕ
  | [] => ([], [])
  | c :: cs =>
    if isDigitCode c then
      let p := parseDigits cs
      (codeDigit c :: p.1, p.2)
    else ([], c :: cs)

/-- Scanner up to the closing single quote. -/
def spanNotQuote : List ℕ → List ℕ × List ℕ
  | [] => ([], [])
  | c :: cs =>
    if c = 39 then ([], c :: cs)
    else
      let p := spanNotQuote cs
      (c :: p.1, p.2)

/-- Primitive-literal parser of `ast.literal_eval`, specialised to the
forms `reprPrim` emits: a quoted string, `True`, `False`, or a signed
number that is a float exactly when a dot follows the integer digits. -/
def parsePrim : List ℕ → Option (PyPrim × List ℕ)
  | [] => none
  | c :: cs =>
    if c = 39 then
      let p := spanNotQuote cs
      if p.2.headD 0 = 39 then some (PyPrim.str p.1, p.2.tail) else none
    else if c = 84 then
      match cs with
      | c1 :: c2 :: c3 :: rest =>
        if c1 = 114 ∧ c2 = 117 ∧ c3 = 101 then some (PyPrim.bool true, rest)
        else none
      | _ => none
    else if c = 70 then
      match cs with
      | c1 :: c2 :: c3 :: c4 :: rest =>
        if c1 = 97 ∧ c2 = 108 ∧ c3 = 115 ∧ c4 = 101 then
          some (PyPrim.bool false, rest)
        else none
      | _ => none
    else
      let neg := c = 45
      let body := if neg then cs else c :: cs
      if isDigitCode (body.headD 0) then
        let p := parseDigits body
        if p.2.headD 0 = 46 then
          if isDigitCode (p.2.tail.headD 0) then
            let q := parseDigits p.2.tail
            some (PyPrim.float ⟨neg, p.1, q.1⟩, q.2)
          else none
        else some (PyPrim.int neg p.1, p.2)
      else none

/-- Elements of a non-empty list literal, with fuel bounding the element
count: each step parses one primitive, then expects `]` or `, `. -/
def parseElems : ℕ → List ℕ → Option (List PyPrim × List ℕ)
  | 0, _ => none
  | fuel + 1, input =>
    match parsePrim input with
    | none => none
    | some (p, rest) =>
      if rest.headD 0 = 93 then some ([p], rest.tail)
      else if rest.headD 0 = 44 ∧ rest.tail.headD 0 = 32 then
        match parseElems fuel rest.tail.tail with
        | some (ps, rest2) => some (p :: ps, rest2)
        | none => none
      else none

/-- Value parser: a bracketed list of primitives or a single primitive. -/
def parseVal (input : List ℕ) : Option (PyVal × List ℕ) :=
  if input.headD 0 = 91 then
    if input.tail.headD 0 = 93 then some (PyVal.list [], input.tail.tail)
    else
      match parseElems input.tail.length input.tail with
      | some (ps, rest) => some (PyVal.list ps, rest)
      | none => none
  else
    match parsePrim input with
    | some (p, rest) => some (PyVal.prim p, rest)
    | none => none

/-- Entries of a non-empty dict literal: a quoted key, `: `, a value, then
`}` or `, `. -/
def parseEntries : ℕ → List ℕ → Option (PyDict × List ℕ)
  | 0, _ => none
  | fuel + 1, input =>
    match parsePrim input with
    | some (PyPrim.str k, rest) =>
      if rest.headD 0 = 58 ∧ rest.tail.headD 0 = 32 then
        match parseVal rest.tail.tail with
        | some (v, rest3) =>
          if rest3.headD 0 = 125 then some ([(k, v)], rest3.tail)
          else if rest3.headD 0 = 44 ∧ rest3.tail.headD 0 = 32 then
            match parseEntries fuel rest3.tail.tail with
            | some (d, rest4) => some ((k, v) :: d, rest4)
            | none => none
          else none
        | none => none
      else none
    | _ => none

/-- Model of `ast.literal_eval` on the dictionary text stored in the file
attrs: parses a full dict literal, requiring all input to be consumed. -/
def literal_eval (input : List ℕ) : Option PyDict :=
  if input.headD 0 = 123 then
    if input.tail = [125] then some []
    else
      match parseEntries input.tail.length input.tail with
      | some (dict, rest) => if rest = [] then some dict else none
      | none => none
  else none

/-- Safe printable character for the free-text attribute: ASCII printable,
not a single quote and not a backslash, so that Python `repr` prints it
verbatim. -/
def safeCode (c : ℕ) : Prop := 32 ≤ c ∧ c ≤ 126 ∧ c ≠ 39 ∧ c ≠ 92

instance (c : ℕ) : Decidable (safeCode c) :=
  inferInstanceAs (Decidable (32 ≤ c ∧ c ≤ 126 ∧ c ≠ 39 ∧ c ≠ 92))

/-- Non-empty run of decimal digits. -/
def wfDigits (ds : List ℕ) : Prop := ds ≠ [] ∧ ∀ d ∈ ds, d < 10

instance (ds : List ℕ) : Decidable (wfDigits ds) :=
  inferInstanceAs (Decidable (ds ≠ [] ∧ ∀ d ∈ ds, d < 10))

/-- Well-formed primitive: digit lists are genuine digits and strings are
safe text. -/
def wfPrim : PyPrim → Prop
  | PyPrim.int _ ds => wfDigits ds
  | PyPrim.float f => wfDigits f.ip ∧ wfDigits f.fp
  | PyPrim.bool _ => True
  | PyPrim.str s => ∀ c ∈ s, safeCode c

instance : (p : PyPrim) → Decidable (wfPrim p)
  | PyPrim.int _ ds => inferInstanceAs (Decidable (wfDigits ds))
  | PyPrim.float f => inferInstanceAs (Decidable (wfDigits f.ip ∧ wfDigits f.fp))
  | PyPrim.bool _ => inferInstanceAs (Decidable True)
  | PyPrim.str s => inferInstanceAs (Decidable (∀ c ∈ s, safeCode c))

/-- Well-formed value. -/
def wfVal : PyVal → Prop
  | PyVal.prim p => wfPrim p
  | PyVal.list ps => ∀ p ∈ ps, wfPrim p

instance : (v : PyVal) → Decidable (wfVal v)
  | PyVal.prim p => inferInstanceAs (Decidable (wfPrim p))
  | PyVal.list ps => inferInstanceAs (Decidable (∀ p ∈ ps, wfPrim p))

/-- Well-formed configuration dictionary: safe string keys, well-formed
primitive values. -/
def wfDict (d : PyDict) : Prop :=
  ∀ kv ∈ d, (∀ c ∈ kv.1, safeCode c) ∧ wfVal kv.2

instance (d : PyDict) : Decidable (wfDict d) :=
  inferInstanceAs (Decidable (∀ kv ∈ d, (∀ c ∈ kv.1, safeCode c) ∧ wfVal kv.2))

/-- Light dictionary of the S4 spectra notebook:
`{'wl_min': 400.0, 'wl_max': 800.0, 'n_wl': 80, 'theta': 0.0, 'phi': 0.0,
'pol': [0.0, 1.0], 'NumBasis': 100}`. -/
def s4_light_dict : PyDict :=
  [ (codes "wl_min", PyVal.prim (PyPrim.float ⟨false, [4, 0, 0], [0]⟩)),
    (codes "wl_max", PyVal.prim (PyPrim.float ⟨false, [8, 0, 0], [0]⟩)),
    (codes "n_wl", PyVal.prim (PyPrim.int false [8, 0])),
    (codes "theta", PyVal.prim (PyPrim.float ⟨false, [0], [0]⟩)),
    (codes "phi", PyVal.prim (PyPrim.float ⟨false, [0], [0]⟩)),
    (codes "pol", PyVal.list [PyPrim.float ⟨false, [0], [0]⟩,
      PyPrim.float ⟨false, [1], [0]⟩]),
    (codes "NumBasis", PyVal.prim (PyPrim.int false [1, 0, 0])) ]

/-- Two-digit zero-padded decimal field of `strftime` (`%d`, `%m`, `%y`,
`%H`, `%M`, `%S` on their in-range values). -/
def pad2 (n : ℕ) : List ℕ := [digitCode (n / 10 % 10), digitCode (n % 10)]

/-- Wall-clock reading of `datetime.now()`: calendar fields down to the
sub-second microsecond field, which `strftime("%d%m%y_%H%M%S")` discards. -/
structure PyDateTime where
  year : ℕ
  month : ℕ
  day : ℕ
  hour : ℕ
  minute : ℕ
  second : ℕ
  microsecond : ℕ
deriving DecidableEq

/-- Timestamp text `now.strftime("%d%m%y_%H%M%S")`: day, month, two-digit
year, underscore (code 95), hour, minute, second. -/
def timestamp (t : PyDateTime) : List ℕ :=
  pad2 t.day ++ pad2 t.month ++ pad2 (t.year % 100) ++ [95] ++
    pad2 t.hour ++ pad2 t.minute ++ pad2 t.second

/-- Geometry entries of the `struct` dictionary read by every filename
builder: inclusion shape plus the float-valued periods, radius, height. -/
structure GeomStruct where
  inc_shape : List ℕ
  nd_period_x : PyFloat
  nd_period_y : PyFloat
  nd_radius : PyFloat
  nd_height : PyFloat
deriving DecidableEq

/-- Python `str` of a float value, as the filename builders call it. -/
def strFloat (f : PyFloat) : List ℕ := reprPrim (PyPrim.float f)

/-- Shared geometry-and-timestamp tail of every `out_filename`:
`<shape>_px<period_x>_py<period_y>_r<radius>_h<height>_<timestamp>`
(each notebook spells this concatenation out literally). -/
def geomTail (s : GeomStruct) (t : PyDateTime) : List ℕ :=
  s.inc_shape ++ codes "_px" ++ strFloat s.nd_period_x ++ codes "_py" ++
    strFloat s.nd_period_y ++ codes "_r" ++ strFloat s.nd_radius ++
    codes "_h" ++ strFloat s.nd_height ++ codes "_" ++ timestamp t

/-- Filename built by the S4 spectra writer (`out_filename`). -/
def s4_spectra_out_filename (s : GeomStruct) (t : PyDateTime) : List ℕ :=
  codes "S4_AuNdArraySpectra_" ++ geomTail s t

/-- File written by the S4 spectra writer (`out_filename + ".nc"`). -/
def s4_spectra_out_file (s : GeomStruct) (t : PyDateTime) : List ℕ :=
  s4_spectra_out_filename s t ++ codes ".nc"

/-- File written by the EMU spectra writer (`out_filename + ".nc"`). -/
def emu_spectra_out_file (s : GeomStruct) (t : PyDateTime) : List ℕ :=
  codes "EMU_AuNdArraySpectra_" ++ geomTail s t ++ codes ".nc"

/-- Text table opened by the wavelength-angle driver
(`out_filename + ".out"`). -/
def emu_theta_out_file (s : GeomStruct) (t : PyDateTime) : List ℕ :=
  codes "EMU_AuNdArraySpectra_" ++ geomTail s t ++ codes ".out"

/-- File written by the EMU local-field writer. -/
def emu_lf_out_file (s : GeomStruct) (t : PyDateTime) : List ℕ :=
  codes "EMU_AuNdArrayLF_" ++ geomTail s t ++ codes ".nc"

/-- File written by the S4 local-field writer. -/
def s4_lf_out_file (s : GeomStruct) (t : PyDateTime) : List ℕ :=
  codes "S4_AuNdArrayLF_" ++ geomTail s t ++ codes ".nc"

/-- Filename convention stated by the spec, written from its words:
`<engine>_<sweepKind>_<shape>_px<period_x>_py<period_y>_r<radius>_h<height>_<DDMMYY_HHMMSS>.<ext>`. -/
def filenameConvention (engine sweepKind : List ℕ) (s : GeomStruct)
    (t : PyDateTime) (ext : List ℕ) : List ℕ :=
  engine ++ [95] ++ sweepKind ++ [95] ++ s.inc_shape ++ [95] ++
    codes "px" ++ strFloat s.nd_period_x ++ [95] ++
    codes "py" ++ strFloat s.nd_period_y ++ [95] ++
    codes "r" ++ strFloat s.nd_radius ++ [95] ++
    codes "h" ++ strFloat s.nd_height ++ [95] ++ timestamp t ++ [46] ++ ext

/-- Numbers of the form `a + b·√2` with rational coefficients, enough to
represent the circular excitation amplitude `1/np.sqrt(2)` exactly. -/
structure Qsqrt2 where
  a : ℚ
  b : ℚ
deriving DecidableEq

/-- Real value denoted by `a + b·√2`. -/
noncomputable def Qsqrt2.val (x : Qsqrt2) : ℝ :=
  (x.a : ℝ) + (x.b : ℝ) * Real.sqrt 2

/-- Complex amplitude with real and imaginary parts in `ℚ[√2]`. -/
structure CAmp where
  re : Qsqrt2
  im : Qsqrt2
deriving DecidableEq

/-- Real pair (real part, imaginary part) denoted by an amplitude. -/
noncomputable def CAmp.val (z : CAmp) : ℝ × ℝ := (z.re.val, z.im.val)

/-- Excitation amplitudes `(sAmp, pAmp)` that `rta` passes to
`S.SetExcitationPlanewave` for every wavelength:
`(1.0/np.sqrt(2.0), -1.0j/np.sqrt(2.0))`, that is `((1/2)·√2, -(1/2)·√2·i)`. -/
def rta_excitation (wl : ℚ) : CAmp × CAmp :=
  (⟨⟨0, 1/2⟩, ⟨0, 0⟩⟩, ⟨⟨0, 0⟩, ⟨0, -(1/2)⟩⟩)

/-- Jones amplitudes `light['pol'] = [0.0, 1.0]` of the configuration
dictionary, the polarization recorded through `str(light)` in the `light`
attribute of the persisted S4 spectra. -/
def recorded_pol : CAmp × CAmp :=
  (⟨⟨0, 0⟩, ⟨0, 0⟩⟩, ⟨⟨1, 0⟩, ⟨0, 0⟩⟩)

/-- Geometry values of the nanodisk-array notebooks: shape `'circle'`,
periods `600.0`, radius `100.0`, height `100.0`. -/
def aund_geom : GeomStruct :=
  ⟨codes "circle", ⟨false, [6, 0, 0], [0]⟩, ⟨false, [6, 0, 0], [0]⟩,
    ⟨false, [1, 0, 0], [0]⟩, ⟨false, [1, 0, 0], [0]⟩⟩

/-- Three-point sweep configuration used to instantiate the failure
claims on concrete inputs. -/
def w7_cfg : SweepCfg := ⟨400, 800, 3, 0, 10, 10, 0⟩

/-- Fallible per-wavelength evaluator raising at 600 nm. -/
def w7_rtaE : ℚ → Except String (ℚ × ℚ × ℚ) :=
  fun wl => if wl = 600 then Except.error "solver raised" else Except.ok (0, 0, 0)

/-- Fallible `simulate_stack` raising at 600 nm. -/
def w7_simE : ℚ → Except String Unit :=
  fun wl => if wl = 600 then Except.error "mesh generation failed"
    else Except.ok ()

/-- Scattering table used to instantiate the ordering claim: the stack
for wavelength `s` exposes recognisable per-layer lists. -/
def w8_scat : ℚ → String → ScatData :=
  fun s _ => ⟨[s, s + 1], [s + 2, s + 3], [s + 4]⟩

/-- Length of a numpy linspace vector is its sample count. -/
theorem length_linspace (a b : ℚ) (n : ℕ) : (linspace a b n).length = n := by
  rw [linspace, List.length_map, List.length_range]

/-- Lengths of the three unzipped component lists. -/
theorem unzip3_lengths (l : List (ℚ × ℚ × ℚ)) :
    (unzip3 l).1.length = l.length ∧ (unzip3 l).2.1.length = l.length
      ∧ (unzip3 l).2.2.length = l.length := by
  induction l with
  | nil => simp [unzip3]
  | cons x rest ih =>
    obtain ⟨r, t, a⟩ := x
    simp only [unzip3, List.length_cons]
    exact ⟨by simp [ih.1], by simp [ih.2.1], by simp [ih.2.2]⟩

/-- Length of a flat map whose pieces all have the same length. -/
theorem length_flatMap_const {α β : Type} (l : List α) (f : α → List β) (k : ℕ)
    (h : ∀ x ∈ l, (f x).length = k) :
    (l.flatMap f).length = l.length * k := by
  induction l with
  | nil => simp
  | cons a t ih =>
    rw [List.flatMap_cons, List.length_append, h a (List.mem_cons_self a t),
      ih (fun x hx => h x (List.mem_cons_of_mem a hx)), List.length_cons]
    ring

/-- Claim C1: the derived circular-dichroism quantities are computed
elementwise as `(L - R) / (L + R)` from the two circular-polarization
result arrays; for equal inputs with nonzero sum the quotient is zero, and
at every index where the sum vanishes the quantity is undefined and the
error case is signalled (`none`). -/
theorem claim_C1 :
    (∀ (vl vr : List ℚ) (i : ℕ), i < vl.length → i < vr.length →
      (cdVec vl vr).getD i none = cdQuot (vl.getD i 0) (vr.getD i 0))
    ∧ (∀ x : ℚ, x + x ≠ 0 → cdQuot x x = some 0)
    ∧ (∀ l r : ℚ, l + r = 0 → cdQuot l r = none) := by
  refine ⟨?_, ?_, ?_⟩
  · intro vl vr i h1 h2
    induction vl generalizing vr i with
    | nil => simp at h1
    | cons a as ih =>
      cases vr with
      | nil => simp at h2
      | cons b bs =>
        cases i with
        | zero => simp [cdVec]
        | succ j =>
          simp only [cdVec, List.zipWith_cons_cons, List.getD_cons_succ]
          exact ih bs j (by simpa using h1) (by simpa using h2)
  · intro x hx
    simp [cdQuot, hx, sub_self]
  · intro l r h
    simp [cdQuot, h]

/-- Instantiation of claim C1 on concrete arrays. -/
theorem claim_C1_witness :
    (cdVec [3, 5] [3, -5]).getD 0 none = cdQuot ([3, 5].getD 0 0) ([3, -5].getD 0 0)
    ∧ cdQuot 3 3 = some 0 ∧ cdQuot 5 (-5) = none :=
  ⟨claim_C1.1 [3, 5] [3, -5] 0 (by decide) (by decide),
    claim_C1.2.1 3 (by norm_num),
    claim_C1.2.2 5 (-5) (by norm_num)⟩

/-- Claim C3: the number of output samples equals the product of the
declared sweep axis lengths — the single-angle spectra drivers (the S4
sweep and the EMU `rta_spectra` postprocessing of the mapped stack list)
return `R`, `T`, `A` arrays each of length `n_wl`, and the combined
wavelength-angle driver writes exactly `n_wl × n_theta` data rows. -/
theorem claim_C3 {σ : Type} (flux : ℚ → ℚ × ℚ × ℚ) (nlayers : σ → ℕ)
    (scat : σ → String → ScatData) (simulate_stack : ℚ → σ)
    (simulate2 : ℚ → ℚ → σ) (pol : String) (cfg : SweepCfg) :
    ((s4Sweep flux cfg).1.length = cfg.n_wl
      ∧ (s4Sweep flux cfg).2.1.length = cfg.n_wl
      ∧ (s4Sweep flux cfg).2.2.length = cfg.n_wl)
    ∧ ((rta_spectra nlayers scat ((v_wl cfg).map simulate_stack) pol).1.length = cfg.n_wl
      ∧ (rta_spectra nlayers scat ((v_wl cfg).map simulate_stack) pol).2.1.length = cfg.n_wl
      ∧ (rta_spectra nlayers scat ((v_wl cfg).map simulate_stack) pol).2.2.length = cfg.n_wl)
    ∧ (emuThetaRows nlayers scat simulate2 cfg).length = cfg.n_wl * cfg.n_theta := by
  have hwl : (v_wl cfg).length = cfg.n_wl := by
    simp [v_wl, length_linspace]
  have hres : (s4SpectraResults flux cfg).length = cfg.n_wl := by
    simp [s4SpectraResults, hwl]
  refine ⟨?_, ?_, ?_⟩
  · have h := unzip3_lengths (s4SpectraResults flux cfg)
    exact ⟨by simp [s4Sweep, h.1, hres], by simp [s4Sweep, h.2.1, hres],
      by simp [s4Sweep, h.2.2, hres]⟩
  · refine ⟨?_, ?_, ?_⟩ <;> simp [rta_spectra, hwl]
  · have h := length_flatMap_const (v_theta cfg)
      (fun theta =>
        (List.range (v_wl cfg).length).map (fun i =>
          ({ wl := (v_wl cfg).getD i 0
             theta := theta
             phi := cfg.phi
             rte := (rta_spectra nlayers scat ((v_wl cfg).map (simulate2 theta)) "TE").1.getD i 0
             tte := (rta_spectra nlayers scat ((v_wl cfg).map (simulate2 theta)) "TE").2.1.getD i 0
             ate := (rta_spectra nlayers scat ((v_wl cfg).map (simulate2 theta)) "TE").2.2.getD i 0
             rtm := (rta_spectra nlayers scat ((v_wl cfg).map (simulate2 theta)) "TM").1.getD i 0
             ttm := (rta_spectra nlayers scat ((v_wl cfg).map (simulate2 theta)) "TM").2.1.getD i 0
             atm := (rta_spectra nlayers scat ((v_wl cfg).map (simulate2 theta)) "TM").2.2.getD i 0
             rcd := (cdVec (rta_spectra nlayers scat ((v_wl cfg).map (simulate2 theta)) "L Circ").1
               (rta_spectra nlayers scat ((v_wl cfg).map (simulate2 theta)) "R Circ").1).getD i none
             tcd := (cdVec (rta_spectra nlayers scat ((v_wl cfg).map (simulate2 theta)) "L Circ").2.1
               (rta_spectra nlayers scat ((v_wl cfg).map (simulate2 theta)) "R Circ").2.1).getD i none
             acd := (cdVec (rta_spectra nlayers scat ((v_wl cfg).map (simulate2 theta)) "L Circ").2.2
               (rta_spectra nlayers scat ((v_wl cfg).map (simulate2 theta)) "R Circ").2.2).getD i none
             rrc := (rta_spectra nlayers scat ((v_wl cfg).map (simulate2 theta)) "R Circ").1.getD i 0
             trc := (rta_spectra nlayers scat ((v_wl cfg).map (simulate2 theta)) "R Circ").2.1.getD i 0
             arc := (rta_spectra nlayers scat ((v_wl cfg).map (simulate2 theta)) "R Circ").2.2.getD i 0
             rlc := (rta_spectra nlayers scat ((v_wl cfg).map (simulate2 theta)) "L Circ").1.getD i 0
             tlc := (rta_spectra nlayers scat ((v_wl cfg).map (simulate2 theta)) "L Circ").2.1.getD i 0
             alc := (rta_spectra nlayers scat ((v_wl cfg).map (simulate2 theta)) "L Circ").2.2.getD i 0 } : ThetaRow)))
      (v_wl cfg).length (fun theta _ => by simp)
    rw [emuThetaRows]
    rw [h]
    simp [v_theta, length_linspace, hwl]
    ring

/-- Claim C4: for a 3-point wavelength sweep the driver returns exactly 3
reflectance/transmittance/absorption triples, and each triple satisfies
`R + T + A = 1`: the sum deviates from 1 by nothing but the solver's
intrinsic absorption term `A = 1 - R - T` itself. -/
theorem claim_C4 (flux : ℚ → ℚ × ℚ × ℚ) (cfg : SweepCfg) (h3 : cfg.n_wl = 3) :
    (s4SpectraResults flux cfg).length = 3
    ∧ ∀ p ∈ s4SpectraResults flux cfg,
        p.1 + p.2.1 + p.2.2 = 1 ∧ p.1 + p.2.1 = 1 - p.2.2 := by
  constructor
  · simp [s4SpectraResults, v_wl, length_linspace, h3]
  · intro p hp
    obtain ⟨wl, _, hw⟩ := List.mem_map.mp hp
    obtain rfl := hw.symm
    constructor
    · show |(flux wl).2.1 / (flux wl).1| + |(flux wl).2.2 / (flux wl).1|
        + (1 - |(flux wl).2.1 / (flux wl).1| - |(flux wl).2.2 / (flux wl).1|) = 1
      ring
    · show |(flux wl).2.1 / (flux wl).1| + |(flux wl).2.2 / (flux wl).1|
        = 1 - (1 - |(flux wl).2.1 / (flux wl).1| - |(flux wl).2.2 / (flux wl).1|)
      ring

/-- Instantiation of claim C4 on a concrete flux table and configuration. -/
theorem claim_C4_witness :
    (s4SpectraResults (fun _ => (1, 1, 1)) ⟨400, 800, 3, 0, 0, 1, 0⟩).length = 3
    ∧ ∀ p ∈ s4SpectraResults (fun _ => (1, 1, 1)) ⟨400, 800, 3, 0, 0, 1, 0⟩,
        p.1 + p.2.1 + p.2.2 = 1 ∧ p.1 + p.2.1 = 1 - p.2.2 :=
  claim_C4 (fun _ => (1, 1, 1)) ⟨400, 800, 3, 0, 0, 1, 0⟩ rfl

/-- Claim C10: the local-field function `lf` ignores its `n_points` and
`lay_interest` arguments — the body reassigns `n_points = 500` and passes
`lay_interest=1` to the field interpolator — so for all argument values
the result is the 500 × 500 magnitude map of layer 1. -/
theorem claim_C10 {σ : Type} (interp : σ → String → ℕ → ℚ → ℚ → ℚ → ℚ)
    (px py : ℚ) (stack : σ) (pol : String) (z : ℚ)
    (n_points lay_interest : ℕ) :
    lf interp px py stack pol z n_points lay_interest
        = lf interp px py stack pol z 500 1
    ∧ (lf interp px py stack pol z n_points lay_interest).length = 500
    ∧ (∀ row ∈ lf interp px py stack pol z n_points lay_interest,
        row.length = 500)
    ∧ lf interp px py stack pol z n_points lay_interest
        = (linspace (-(py / px)) 0 500).map (fun y =>
            (linspace 0 1 500).map (fun x => interp stack pol 1 z x y)) := by
  refine ⟨rfl, ?_, ?_, rfl⟩
  · simp [lf, length_linspace]
  · intro row hrow
    obtain ⟨y, _, hy⟩ := List.mem_map.mp hrow
    rw [← hy]
    simp [length_linspace]

/-- Evaluation of the concrete 3-point wavelength vector. -/
theorem w7_v_wl_eval : v_wl w7_cfg = [400, 600, 800] := by
  simp only [v_wl, w7_cfg, linspace]
  norm_num [List.range_succ]

/-- Failure of any mapped worker makes the whole collected map fail. -/
theorem mapExcept_error {α β ε : Type} (f : α → Except ε β) (l : List α)
    (h : ∃ x ∈ l, ∃ e, f x = Except.error e) :
    ∃ e, mapExcept f l = Except.error e := by
  induction l with
  | nil => simp at h
  | cons y ys ih =>
    obtain ⟨x, hx, e, he⟩ := h
    rcases List.mem_cons.mp hx with rfl | hmem
    · exact ⟨e, by simp [mapExcept, he]⟩
    · cases hfy : f y with
      | error e2 => exact ⟨e2, by simp [mapExcept, hfy]⟩
      | ok v =>
        obtain ⟨e3, he3⟩ := ih ⟨x, hmem, e, he⟩
        exact ⟨e3, by simp [mapExcept, hfy, he3]⟩

/-- Claim C7: whenever any per-sample solver call raises, the exception
propagates unhandled through the driver and terminates the run with no
partial-results recovery — no part of the sweep result is delivered for a
run in which any worker failed (both for the S4 per-wavelength evaluator
and for the EMU `simulate_stack` workers). -/
theorem claim_C7 {σ ε : Type} (nlayers : σ → ℕ) (scat : σ → String → ScatData)
    (rtaE : ℚ → Except ε (ℚ × ℚ × ℚ)) (simulateE : ℚ → Except ε σ)
    (cfg : SweepCfg) (pol : String) :
    ((∃ wl ∈ v_wl cfg, ∃ e, rtaE wl = Except.error e) →
      (∃ e, s4DriverE rtaE cfg = Except.error e)
      ∧ ∀ res, s4DriverE rtaE cfg ≠ Except.ok res)
    ∧ ((∃ wl ∈ v_wl cfg, ∃ e, simulateE wl = Except.error e) →
      (∃ e, emuDriverE nlayers scat simulateE cfg pol = Except.error e)
      ∧ ∀ res, emuDriverE nlayers scat simulateE cfg pol ≠ Except.ok res) := by
  constructor
  · intro h
    obtain ⟨e, he⟩ := mapExcept_error rtaE (v_wl cfg) h
    have hd : s4DriverE rtaE cfg = Except.error e := he
    refine ⟨⟨e, hd⟩, fun res hres => ?_⟩
    rw [hd] at hres
    cases hres
  · intro h
    obtain ⟨e, he⟩ := mapExcept_error simulateE (v_wl cfg) h
    have hd : emuDriverE nlayers scat simulateE cfg pol = Except.error e := by
      rw [emuDriverE, he]
    refine ⟨⟨e, hd⟩, fun res hres => ?_⟩
    rw [hd] at hres
    cases hres

/-- Instantiation of claim C7 on a worker that raises at 600 nm in a
3-point sweep. -/
theorem claim_C7_witness :
    ((∃ e, s4DriverE w7_rtaE w7_cfg = Except.error e)
      ∧ ∀ res, s4DriverE w7_rtaE w7_cfg ≠ Except.ok res)
    ∧ ((∃ e, emuDriverE (fun _ : Unit => 3) (fun _ _ => ⟨[], [], []⟩)
          w7_simE w7_cfg "TM" = Except.error e)
      ∧ ∀ res, emuDriverE (fun _ : Unit => 3) (fun _ _ => ⟨[], [], []⟩)
          w7_simE w7_cfg "TM" ≠ Except.ok res) :=
  ⟨(claim_C7 (fun _ : Unit => 3) (fun _ _ => ⟨[], [], []⟩) w7_rtaE w7_simE
      w7_cfg "TM").1 ⟨600, by rw [w7_v_wl_eval]; simp, "solver raised",
        by simp [w7_rtaE]⟩,
    (claim_C7 (fun _ : Unit => 3) (fun _ _ => ⟨[], [], []⟩) w7_rtaE w7_simE
      w7_cfg "TM").2 ⟨600, by rw [w7_v_wl_eval]; simp,
        "mesh generation failed", by simp [w7_simE]⟩⟩

/-- Claim C6: output-filename uniqueness across runs in the same
wall-clock second is not guaranteed — for identical geometry parameters
and `datetime.now()` readings within the same second (arbitrary
microsecond fields) the constructed filenames are equal, the filename
being a deterministic function of the geometry and the second-resolution
timestamp. -/
theorem claim_C6 (s : GeomStruct) (t1 t2 : PyDateTime)
    (hy : t1.year = t2.year) (hmo : t1.month = t2.month)
    (hd : t1.day = t2.day) (hh : t1.hour = t2.hour)
    (hmi : t1.minute = t2.minute) (hs : t1.second = t2.second) :
    s4_spectra_out_filename s t1 = s4_spectra_out_filename s t2 := by
  simp [s4_spectra_out_filename, geomTail, timestamp, hy, hmo, hd, hh, hmi, hs]

/-- Instantiation of claim C6: two runs one microsecond versus just under
one second into the same wall-clock second collide. -/
theorem claim_C6_witness :
    s4_spectra_out_filename aund_geom ⟨2022, 2, 18, 17, 48, 38, 1⟩
      = s4_spectra_out_filename aund_geom ⟨2022, 2, 18, 17, 48, 38, 999999⟩ :=
  claim_C6 aund_geom ⟨2022, 2, 18, 17, 48, 38, 1⟩
    ⟨2022, 2, 18, 17, 48, 38, 999999⟩ rfl rfl rfl rfl rfl rfl

/-- Claim C9: every output filename produced by the writers follows the
convention
`<engine>_<sweepKind>_<shape>_px<period_x>_py<period_y>_r<radius>_h<height>_<DDMMYY_HHMMSS>.<ext>`
with the engine tag, the inclusion shape, the `str` forms of the two
periods, radius and height, and the second-resolution creation timestamp. -/
theorem claim_C9 (s : GeomStruct) (t : PyDateTime) :
    s4_spectra_out_file s t
        = filenameConvention (codes "S4") (codes "AuNdArraySpectra") s t (codes "nc")
    ∧ emu_spectra_out_file s t
        = filenameConvention (codes "EMU") (codes "AuNdArraySpectra") s t (codes "nc")
    ∧ emu_theta_out_file s t
        = filenameConvention (codes "EMU") (codes "AuNdArraySpectra") s t (codes "out")
    ∧ emu_lf_out_file s t
        = filenameConvention (codes "EMU") (codes "AuNdArrayLF") s t (codes "nc")
    ∧ s4_lf_out_file s t
        = filenameConvention (codes "S4") (codes "AuNdArrayLF") s t (codes "nc") := by
  have hpre1 : codes "S4_AuNdArraySpectra_"
      = codes "S4" ++ [95] ++ codes "AuNdArraySpectra" ++ [95] := by decide
  have hpre2 : codes "EMU_AuNdArraySpectra_"
      = codes "EMU" ++ [95] ++ codes "AuNdArraySpectra" ++ [95] := by decide
  have hpre3 : codes "EMU_AuNdArrayLF_"
      = codes "EMU" ++ [95] ++ codes "AuNdArrayLF" ++ [95] := by decide
  have hpre4 : codes "S4_AuNdArrayLF_"
      = codes "S4" ++ [95] ++ codes "AuNdArrayLF" ++ [95] := by decide
  have hpx : codes "_px" = [95] ++ codes "px" := by decide
  have hpy : codes "_py" = [95] ++ codes "py" := by decide
  have hr : codes "_r" = [95] ++ codes "r" := by decide
  have hh : codes "_h" = [95] ++ codes "h" := by decide
  have hu : codes "_" = [95] := by decide
  have hnc : codes ".nc" = [46] ++ codes "nc" := by decide
  have hout : codes ".out" = [46] ++ codes "out" := by decide
  refine ⟨?_, ?_, ?_, ?_, ?_⟩ <;>
    simp [s4_spectra_out_file, s4_spectra_out_filename, emu_spectra_out_file,
      emu_theta_out_file, emu_lf_out_file, s4_lf_out_file, geomTail,
      filenameConvention, hpre1, hpre2, hpre3, hpre4, hpx, hpy, hr, hh, hu,
      hnc, hout, List.append_assoc]

/-- Claim C5: for every wavelength the S4 per-sample evaluator `rta` sets
the plane-wave excitation amplitudes to the fixed circular values
`(1/√2, -i/√2)`, ignoring the `light['pol'] = [0.0, 1.0]` entry of the
configuration dictionary, so the `light` attribute attached to the
persisted output records a polarization different (both as written and in
real value) from the one actually used. -/
theorem claim_C5 :
    (∀ wl : ℚ, rta_excitation wl
        = (⟨⟨0, 1 / 2⟩, ⟨0, 0⟩⟩, ⟨⟨0, 0⟩, ⟨0, -(1 / 2)⟩⟩))
    ∧ (∀ wl : ℚ, rta_excitation wl ≠ recorded_pol)
    ∧ (∀ wl : ℚ, (rta_excitation wl).1.val ≠ recorded_pol.1.val
        ∧ (rta_excitation wl).2.val ≠ recorded_pol.2.val) := by
  have hs2 : (0 : ℝ) < Real.sqrt 2 := Real.sqrt_pos.mpr (by norm_num)
  refine ⟨fun _ => rfl, fun wl h => ?_, fun wl => ⟨?_, ?_⟩⟩
  · have h1 := congrArg (fun q : CAmp × CAmp => q.2.re.a) h
    simp [rta_excitation, recorded_pol] at h1
  · intro h
    have h1 : ((rta_excitation wl).1.val).1 = (recorded_pol.1.val).1 := by
      rw [h]
    simp only [rta_excitation, recorded_pol, CAmp.val, Qsqrt2.val] at h1
    push_cast at h1
    nlinarith [hs2]
  · intro h
    have h1 : ((rta_excitation wl).2.val).1 = (recorded_pol.2.val).1 := by
      rw [h]
    simp only [rta_excitation, recorded_pol, CAmp.val, Qsqrt2.val] at h1
    push_cast at h1
    nlinarith [hs2]

/-- Indexing into a flat map of equal-length blocks selects inside the
block of the selected element. -/
theorem flatMap_getD_block {σ : Type} (f : σ → List ℚ) (l : List σ) (k : ℕ)
    (hk : ∀ s ∈ l, (f s).length = k) (i j : ℕ) (hi : i < l.length)
    (hj : j < k) (d : σ) :
    (l.flatMap f).getD (i * k + j) 0 = (f (l.getD i d)).getD j 0 := by
  induction l generalizing i with
  | nil => simp at hi
  | cons s rest ih =>
    have hlen : (f s).length = k := hk s (List.mem_cons_self s rest)
    cases i with
    | zero =>
      rw [List.flatMap_cons, Nat.zero_mul, Nat.zero_add,
        List.getD_append _ _ _ _ (by omega)]
      simp
    | succ n =>
      rw [List.flatMap_cons,
        List.getD_append_right _ _ _ _ (by rw [hlen, Nat.succ_mul]; omega)]
      have harith : (n + 1) * k + j - (f s).length = n * k + j := by
        rw [hlen, Nat.succ_mul]; omega
      rw [harith, List.getD_cons_succ]
      exact ih (fun x hx => hk x (List.mem_cons_of_mem s hx)) n
        (by simpa using hi)

/-- Indexing into a map over `List.range`. -/
theorem map_range_getD (g : ℕ → ℚ) (n i : ℕ) (hi : i < n) (dflt : ℚ) :
    ((List.range n).map g).getD i dflt = g i := by
  rw [List.getD_eq_getElem?_getD, List.getElem?_map, List.getElem?_range hi]
  rfl

/-- Entry `i` of each array returned by `rta_spectra` is extracted from
the scattering lists of stack `i` alone: the total reflectance is the
single `r_list` entry of stack `i`, total transmittance and absorption are
the last entries of the per-layer blocks of stack `i`. -/
theorem rta_spectra_getD {σ : Type} (nlayers : σ → ℕ)
    (scat : σ → String → ScatData) (stacks_list : List σ) (pol : String) (L : ℕ)
    (hL : 2 ≤ L) (hlay : ∀ s ∈ stacks_list, nlayers s = L)
    (hsc : ∀ s ∈ stacks_list, (scat s pol).aList.length = L - 1
      ∧ (scat s pol).tList.length = L - 1 ∧ (scat s pol).rList.length = 1)
    (i : ℕ) (hi : i < stacks_list.length) (d : σ) :
    (rta_spectra nlayers scat stacks_list pol).1.getD i 0
        = (scat (stacks_list.getD i d) pol).rList.getD 0 0
    ∧ (rta_spectra nlayers scat stacks_list pol).2.1.getD i 0
        = (scat (stacks_list.getD i d) pol).tList.getD (L - 2) 0
    ∧ (rta_spectra nlayers scat stacks_list pol).2.2.getD i 0
        = (scat (stacks_list.getD i d) pol).aList.getD (L - 2) 0 := by
  cases stacks_list with
  | nil => simp at hi
  | cons s0 rest =>
    have hsteps : nlayers s0 - 1 = L - 1 := by
      rw [hlay s0 (List.mem_cons_self s0 rest)]
    refine ⟨?_, ?_, ?_⟩
    · rw [show (rta_spectra nlayers scat (s0 :: rest) pol).1
          = (List.range (s0 :: rest).length).map
              (fun i => ((s0 :: rest).flatMap
                (fun s => (scat s pol).rList)).getD i 0) from rfl]
      rw [map_range_getD _ _ _ hi]
      have hb := flatMap_getD_block (fun s => (scat s pol).rList)
        (s0 :: rest) 1 (fun s hs => (hsc s hs).2.2) i 0 hi (by omega) d
      simpa using hb
    · rw [show (rta_spectra nlayers scat (s0 :: rest) pol).2.1
          = (List.range (s0 :: rest).length).map
              (fun i => ((s0 :: rest).flatMap
                (fun s => (scat s pol).tList)).getD
                  (nlayers s0 - 1 - 1 + i * (nlayers s0 - 1)) 0) from rfl]
      rw [map_range_getD _ _ _ hi, hsteps]
      have harith : L - 1 - 1 + i * (L - 1) = i * (L - 1) + (L - 2) := by
        have h1 : L - 1 - 1 = L - 2 := by omega
        rw [h1, Nat.add_comm]
      rw [harith]
      exact flatMap_getD_block (fun s => (scat s pol).tList) (s0 :: rest)
        (L - 1) (fun s hs => (hsc s hs).2.1) i (L - 2) hi (by omega) d
    · rw [show (rta_spectra nlayers scat (s0 :: rest) pol).2.2
          = (List.range (s0 :: rest).length).map
              (fun i => ((s0 :: rest).flatMap
                (fun s => (scat s pol).aList)).getD
                  (nlayers s0 - 1 - 1 + i * (nlayers s0 - 1)) 0) from rfl]
      rw [map_range_getD _ _ _ hi, hsteps]
      have harith : L - 1 - 1 + i * (L - 1) = i * (L - 1) + (L - 2) := by
        have h1 : L - 1 - 1 = L - 2 := by omega
        rw [h1, Nat.add_comm]
      rw [harith]
      exact flatMap_getD_block (fun s => (scat s pol).aList) (s0 :: rest)
        (L - 1) (fun s hs => (hsc s hs).1) i (L - 2) hi (by omega) d

/-- Claim C8: the bulk driver collects results in input order — for every
index `i` of the wavelength sequence, the `i`-th entry of each returned
array (`R`, `T`, `A`) is extracted from the stack simulated for the `i`-th
wavelength of `v_wl`. -/
theorem claim_C8 {σ : Type} (nlayers : σ → ℕ) (scat : σ → String → ScatData)
    (simulate_stack : ℚ → σ) (cfg : SweepCfg) (pol : String) (L : ℕ)
    (hL : 2 ≤ L)
    (hlay : ∀ wl ∈ v_wl cfg, nlayers (simulate_stack wl) = L)
    (hsc : ∀ wl ∈ v_wl cfg,
      (scat (simulate_stack wl) pol).aList.length = L - 1
      ∧ (scat (simulate_stack wl) pol).tList.length = L - 1
      ∧ (scat (simulate_stack wl) pol).rList.length = 1) :
    ∀ (i : ℕ) (wl : ℚ), (v_wl cfg)[i]? = some wl →
      (rta_spectra nlayers scat ((v_wl cfg).map simulate_stack) pol).1.getD i 0
          = (scat (simulate_stack wl) pol).rList.getD 0 0
      ∧ (rta_spectra nlayers scat ((v_wl cfg).map simulate_stack) pol).2.1.getD i 0
          = (scat (simulate_stack wl) pol).tList.getD (L - 2) 0
      ∧ (rta_spectra nlayers scat ((v_wl cfg).map simulate_stack) pol).2.2.getD i 0
          = (scat (simulate_stack wl) pol).aList.getD (L - 2) 0 := by
  intro i wl hiw
  have hi : i < (v_wl cfg).length := (List.getElem?_eq_some_iff.mp hiw).1
  have hi2 : i < ((v_wl cfg).map simulate_stack).length := by
    rw [List.length_map]; exact hi
  have hgetd : ((v_wl cfg).map simulate_stack).getD i (simulate_stack wl)
      = simulate_stack wl := by
    rw [List.getD_eq_getElem?_getD, List.getElem?_map, hiw]
    rfl
  have h := rta_spectra_getD nlayers scat ((v_wl cfg).map simulate_stack) pol
    L hL
    (fun s hs => by
      obtain ⟨w, hw, rfl⟩ := List.mem_map.mp hs
      exact hlay w hw)
    (fun s hs => by
      obtain ⟨w, hw, rfl⟩ := List.mem_map.mp hs
      exact hsc w hw)
    i hi2 (simulate_stack wl)
  rw [hgetd] at h
  exact h

/-- Instantiation of claim C8: in the concrete 3-point sweep with
identity stacks, entry 1 of each array comes from the 600 nm stack. -/
theorem claim_C8_witness :
    (rta_spectra (fun _ : ℚ => 3) w8_scat
        ((v_wl w7_cfg).map (fun q => q)) "TE").1.getD 1 0
      = (w8_scat 600 "TE").rList.getD 0 0
    ∧ (rta_spectra (fun _ : ℚ => 3) w8_scat
        ((v_wl w7_cfg).map (fun q => q)) "TE").2.1.getD 1 0
      = (w8_scat 600 "TE").tList.getD 1 0
    ∧ (rta_spectra (fun _ : ℚ => 3) w8_scat
        ((v_wl w7_cfg).map (fun q => q)) "TE").2.2.getD 1 0
      = (w8_scat 600 "TE").aList.getD 1 0 :=
  claim_C8 (fun _ => 3) w8_scat (fun q => q) w7_cfg "TE" 3 (by norm_num)
    (fun _ _ => rfl) (fun _ _ => ⟨rfl, rfl, rfl⟩) 1 600
    (by rw [w7_v_wl_eval]; rfl)

/-- Scanning the printed digits recovers them and stops at the first
non-digit. -/
theorem parseDigits_repr (ds rest : List ℕ) (hds : ∀ d ∈ ds, d < 10)
    (hrest : isDigitCode (rest.headD 0) = false) :
    parseDigits (reprDigits ds ++ rest) = (ds, rest) := by
  induction ds with
  | nil =>
    cases rest with
    | nil => simp [reprDigits, parseDigits]
    | cons c cs =>
      have hc : isDigitCode c = false := by simpa using hrest
      simp [reprDigits, parseDigits, hc]
  | cons d ds' ih =>
    have hd : d < 10 := hds d (List.mem_cons_self d ds')
    have hdig : isDigitCode (digitCode d) = true := by
      simp only [isDigitCode, digitCode, Bool.and_eq_true, decide_eq_true_eq]
      omega
    have ih2 := ih (fun x hx => hds x (List.mem_cons_of_mem d hx))
    simp only [reprDigits, List.map_cons, List.cons_append, parseDigits, hdig,
      if_true]
    simp only [List.append_eq]
    rw [show List.map digitCode ds' = reprDigits ds' from rfl, ih2]
    simp [codeDigit, digitCode]

/-- Scanning the printed string body stops exactly at the closing quote. -/
theorem spanNotQuote_repr (s rest : List ℕ) (hs : ∀ c ∈ s, c ≠ 39) :
    spanNotQuote (s ++ 39 :: rest) = (s, 39 :: rest) := by
  induction s with
  | nil => simp [spanNotQuote]
  | cons c cs ih =>
    have hc : c ≠ 39 := hs c (List.mem_cons_self c cs)
    have ih2 := ih (fun x hx => hs x (List.mem_cons_of_mem c hx))
    simp only [List.cons_append, spanNotQuote, if_neg hc, List.append_eq, ih2]

/-- Every printed primitive starts with a code in `[39, 84]`: a quote, a
letter of `True`/`False`, a minus sign or a digit. -/
theorem reprPrim_head_range (p : PyPrim) (h : wfPrim p) :
    ∃ c cs, reprPrim p = c :: cs ∧ 39 ≤ c ∧ c ≤ 84 := by
  cases p with
  | int neg ds =>
    obtain ⟨hne, hlt⟩ := h
    cases neg with
    | true => exact ⟨45, reprDigits ds, by simp [reprPrim], by omega, by omega⟩
    | false =>
      cases ds with
      | nil => exact absurd rfl hne
      | cons d ds' =>
        have hd : d < 10 := hlt d (List.mem_cons_self d ds')
        refine ⟨digitCode d, reprDigits ds', by simp [reprPrim, reprDigits], ?_, ?_⟩
        · simp only [digitCode]; omega
        · simp only [digitCode]; omega
  | float f =>
    obtain ⟨⟨hne, hlt⟩, _⟩ := h
    cases hn : f.neg with
    | true =>
      exact ⟨45, reprDigits f.ip ++ [46] ++ reprDigits f.fp,
        by simp [reprPrim, hn], by omega, by omega⟩
    | false =>
      cases hip : f.ip with
      | nil => exact absurd hip hne
      | cons d ds' =>
        have hd : d < 10 := hlt d (by rw [hip]; exact List.mem_cons_self d ds')
        refine ⟨digitCode d, reprDigits ds' ++ [46] ++ reprDigits f.fp,
          by simp [reprPrim, hn, hip, reprDigits], ?_, ?_⟩
        · simp only [digitCode]; omega
        · simp only [digitCode]; omega
  | bool b =>
    cases b with
    | true => exact ⟨84, [114, 117, 101], by decide, by omega, by omega⟩
    | false => exact ⟨70, [97, 108, 115, 101], by decide, by omega, by omega⟩
  | str s => exact ⟨39, s ++ [39], by simp [reprPrim], by omega, by omega⟩

/-- Printed primitives are never empty. -/
theorem reprPrim_ne_nil (p : PyPrim) (h : wfPrim p) : reprPrim p ≠ [] := by
  obtain ⟨c, cs, hrepr, _, _⟩ := reprPrim_head_range p h
  simp [hrepr]

/-- Joining nonempty pieces yields at least one code per piece. -/
theorem commaSep_length_ge (ls : List (List ℕ)) (h : ∀ x ∈ ls, x ≠ []) :
    ls.length ≤ (commaSep ls).length := by
  induction ls with
  | nil => simp [commaSep]
  | cons x xs ih =>
    have hx : x ≠ [] := h x (List.mem_cons_self x xs)
    have hx1 : 1 ≤ x.length := List.length_pos.mpr hx
    cases xs with
    | nil => simpa [commaSep] using hx1
    | cons y ys =>
      have ih2 := ih (fun z hz => h z (List.mem_cons_of_mem x hz))
      simp only [commaSep, List.length_append, List.length_cons] at ih2 ⊢
      omega

/-- Parsing a printed primitive recovers it, provided the remaining text
does not start with a digit or a dot (in the dict text it starts with a
colon, a comma, a bracket or a brace). -/
theorem parsePrim_repr (p : PyPrim) (rest : List ℕ) (hwf : wfPrim p)
    (h1 : isDigitCode (rest.headD 0) = false) (h2 : rest.headD 0 ≠ 46) :
    parsePrim (reprPrim p ++ rest) = some (p, rest) := by
  cases p with
  | str s =>
    have hs : ∀ c ∈ s, c ≠ 39 := fun c hc => (hwf c hc).2.2.1
    have happ : reprPrim (PyPrim.str s) ++ rest = 39 :: (s ++ 39 :: rest) := by
      simp [reprPrim]
    rw [happ]
    simp [parsePrim, spanNotQuote_repr s rest hs]
  | bool b =>
    cases b with
    | true =>
      have happ : reprPrim (PyPrim.bool true) ++ rest
          = 84 :: 114 :: 117 :: 101 :: rest := by
        rw [show reprPrim (PyPrim.bool true) = [84, 114, 117, 101] from by
          decide]
        rfl
      rw [happ]
      simp [parsePrim]
    | false =>
      have happ : reprPrim (PyPrim.bool false) ++ rest
          = 70 :: 97 :: 108 :: 115 :: 101 :: rest := by
        rw [show reprPrim (PyPrim.bool false) = [70, 97, 108, 115, 101] from by
          decide]
        rfl
      rw [happ]
      simp [parsePrim]
  | int neg ds =>
    obtain ⟨hne, hlt⟩ := hwf
    cases ds with
    | nil => exact absurd rfl hne
    | cons d0 ds' =>
      have hd0 : d0 < 10 := hlt d0 (List.mem_cons_self d0 ds')
      have hpd := parseDigits_repr (d0 :: ds') rest hlt h1
      have h1' : isDigitCode (rest.head?.getD 0) = false := by simpa using h1
      have h2' : ¬rest.head?.getD 0 = 46 := by simpa using h2
      have hhead : (reprDigits (d0 :: ds')).head? = some (digitCode d0) := by
        simp [reprDigits]
      have hdig : isDigitCode (digitCode d0) = true := by
        simp only [isDigitCode, digitCode, Bool.and_eq_true,
          decide_eq_true_eq]
        omega
      cases neg with
      | true =>
        have happ : reprPrim (PyPrim.int true (d0 :: ds')) ++ rest
            = 45 :: (reprDigits (d0 :: ds') ++ rest) := by
          simp [reprPrim]
        rw [happ]
        simp [parsePrim, hhead, hdig, hpd, h1', h2']
      | false =>
        have hne39 : digitCode d0 ≠ 39 := by simp only [digitCode]; omega
        have hne84 : digitCode d0 ≠ 84 := by simp only [digitCode]; omega
        have hne70 : digitCode d0 ≠ 70 := by simp only [digitCode]; omega
        have hne45 : digitCode d0 ≠ 45 := by simp only [digitCode]; omega
        have happ : reprPrim (PyPrim.int false (d0 :: ds')) ++ rest
            = digitCode d0 :: (reprDigits ds' ++ rest) := by
          simp [reprPrim, reprDigits]
        have hfold : digitCode d0 :: (reprDigits ds' ++ rest)
            = reprDigits (d0 :: ds') ++ rest := by
          simp [reprDigits]
        rw [happ]
        simp only [parsePrim, if_neg hne39, if_neg hne84, if_neg hne70,
          if_neg hne45, hfold]
        simp [hhead, hdig, hpd, h1', h2', hne45]
  | float f =>
    obtain ⟨fneg, fip, ffp⟩ := f
    obtain ⟨⟨hipne, hiplt⟩, hfpne, hfplt⟩ := hwf
    cases fip with
    | nil => exact absurd rfl hipne
    | cons d0 ds' =>
      cases ffp with
      | nil => exact absurd rfl hfpne
      | cons e0 es' =>
        have hd0 : d0 < 10 := hiplt d0 (List.mem_cons_self d0 ds')
        have he0 : e0 < 10 := hfplt e0 (List.mem_cons_self e0 es')
        have hpd2 := parseDigits_repr (e0 :: es') rest hfplt h1
        have hpd1 := parseDigits_repr (d0 :: ds')
          (46 :: (reprDigits (e0 :: es') ++ rest)) hiplt (by
            simp [isDigitCode])
        have h1' : isDigitCode (rest.head?.getD 0) = false := by simpa using h1
        have h2' : ¬rest.head?.getD 0 = 46 := by simpa using h2
        have hhead1 : (reprDigits (d0 :: ds')).head? = some (digitCode d0) := by
          simp [reprDigits]
        have hhead2 : (reprDigits (e0 :: es')).head? = some (digitCode e0) := by
          simp [reprDigits]
        have hdig1 : isDigitCode (digitCode d0) = true := by
          simp only [isDigitCode, digitCode, Bool.and_eq_true,
            decide_eq_true_eq]
          omega
        have hdig2 : isDigitCode (digitCode e0) = true := by
          simp only [isDigitCode, digitCode, Bool.and_eq_true,
            decide_eq_true_eq]
          omega
        cases fneg with
        | true =>
          have happ : reprPrim (PyPrim.float ⟨true, d0 :: ds', e0 :: es'⟩)
              ++ rest
              = 45 :: (reprDigits (d0 :: ds')
                  ++ (46 :: (reprDigits (e0 :: es') ++ rest))) := by
            simp [reprPrim]
          rw [happ]
          simp [parsePrim, hhead1, hhead2, hdig1, hdig2, hpd1, hpd2, h1', h2']
        | false =>
          have hne39 : digitCode d0 ≠ 39 := by simp only [digitCode]; omega
          have hne84 : digitCode d0 ≠ 84 := by simp only [digitCode]; omega
          have hne70 : digitCode d0 ≠ 70 := by simp only [digitCode]; omega
          have hne45 : digitCode d0 ≠ 45 := by simp only [digitCode]; omega
          have happ : reprPrim (PyPrim.float ⟨false, d0 :: ds', e0 :: es'⟩)
              ++ rest
              = digitCode d0 :: (reprDigits ds'
                  ++ (46 :: (reprDigits (e0 :: es') ++ rest))) := by
            simp [reprPrim, reprDigits]
          have hfold : digitCode d0
                :: (reprDigits ds' ++ (46 :: (reprDigits (e0 :: es') ++ rest)))
              = reprDigits (d0 :: ds')
                  ++ (46 :: (reprDigits (e0 :: es') ++ rest)) := by
            simp [reprDigits]
          rw [happ]
          simp only [parsePrim, if_neg hne39, if_neg hne84, if_neg hne70,
            if_neg hne45, hfold]
          simp [hhead1, hhead2, hdig1, hdig2, hpd1, hpd2, h1', h2', hne45]

/-- Parsing the printed elements of a non-empty list recovers them and
consumes the closing bracket, for any sufficient fuel. -/
theorem parseElems_repr (ps : List PyPrim) (fuel : ℕ) (rest : List ℕ) :
    ps ≠ [] → ps.length ≤ fuel → (∀ p ∈ ps, wfPrim p) →
    parseElems fuel (commaSep (ps.map reprPrim) ++ 93 :: rest)
      = some (ps, rest) := by
  induction ps generalizing fuel with
  | nil => exact fun hne _ _ => absurd rfl hne
  | cons p ps' ih =>
    intro _ hfuel hwf
    have hwp : wfPrim p := hwf p (List.mem_cons_self p ps')
    cases fuel with
    | zero => simp at hfuel
    | succ f =>
      cases ps' with
      | nil =>
        have hp := parsePrim_repr p (93 :: rest) hwp (by simp [isDigitCode])
          (by simp)
        have happ : commaSep ([p].map reprPrim) ++ 93 :: rest
            = reprPrim p ++ 93 :: rest := by
          simp [commaSep]
        rw [happ]
        simp [parseElems, hp]
      | cons q qs =>
        have happ : commaSep ((p :: q :: qs).map reprPrim) ++ 93 :: rest
            = reprPrim p ++ (44 :: 32
                :: (commaSep ((q :: qs).map reprPrim) ++ 93 :: rest)) := by
          simp [commaSep, List.append_assoc]
        have hp := parsePrim_repr p
          (44 :: 32 :: (commaSep ((q :: qs).map reprPrim) ++ 93 :: rest)) hwp
          (by simp [isDigitCode]) (by simp)
        have ih2 := ih f (by simp)
          (by simp only [List.length_cons] at hfuel ⊢; omega)
          (fun x hx => hwf x (List.mem_cons_of_mem p hx))
        rw [happ]
        set E := commaSep ((q :: qs).map reprPrim) with hE
        simp only [parseElems]
        rw [hp]
        simp [ih2]

/-- Parsing a printed value recovers it, under the same boundary condition
as for primitives. -/
theorem parseVal_repr (v : PyVal) (rest : List ℕ) (hwf : wfVal v)
    (h1 : isDigitCode (rest.headD 0) = false) (h2 : rest.headD 0 ≠ 46) :
    parseVal (reprVal v ++ rest) = some (v, rest) := by
  cases v with
  | prim p =>
    obtain ⟨c, cs, hrepr, hc1, hc2⟩ := reprPrim_head_range p hwf
    have hp := parsePrim_repr p rest hwf h1 h2
    have hne91 : c ≠ 91 := by omega
    have hh : (reprPrim p).head? = some c := by simp [hrepr]
    rw [show reprVal (PyVal.prim p) = reprPrim p from rfl]
    simp [parseVal, hh, hne91, hp]
  | list ps =>
    cases ps with
    | nil =>
      rw [show reprVal (PyVal.list []) = [91, 93] from by simp [reprVal, commaSep]]
      simp [parseVal]
    | cons q qs =>
      have hwq : wfPrim q := hwf q (List.mem_cons_self q qs)
      obtain ⟨c, cs, hrepr, hc1, hc2⟩ := reprPrim_head_range q hwq
      have happ : reprVal (PyVal.list (q :: qs)) ++ rest
          = 91 :: (commaSep ((q :: qs).map reprPrim) ++ 93 :: rest) := by
        simp [reprVal, List.append_assoc]
      have hq : (commaSep ((q :: qs).map reprPrim)).head? = some c := by
        cases qs with
        | nil => simp [commaSep, hrepr]
        | cons r rs => simp [commaSep, hrepr]
      have hne93 : c ≠ 93 := by omega
      have hge := commaSep_length_ge ((q :: qs).map reprPrim) (fun x hx => by
        obtain ⟨p', hp', rfl⟩ := List.mem_map.mp hx
        exact reprPrim_ne_nil p' (hwf p' hp'))
      have hlen : (q :: qs).length
          ≤ (commaSep ((q :: qs).map reprPrim) ++ 93 :: rest).length := by
        simp only [List.length_map, List.length_cons] at hge
        simp only [List.length_append, List.length_cons]
        omega
      have hel := parseElems_repr (q :: qs)
        (commaSep ((q :: qs).map reprPrim) ++ 93 :: rest).length rest
        (by simp) hlen hwf
      rw [happ]
      set E := commaSep ((q :: qs).map reprPrim) with hE
      simp only [List.length_append, List.length_cons] at hel
      simp [parseVal, hq, hne93, hel]

/-- Parsing the printed entries of a non-empty dict recovers them and
consumes the closing brace, for any sufficient fuel. -/
theorem parseEntries_repr (d : PyDict) (fuel : ℕ) (rest : List ℕ) :
    d ≠ [] → d.length ≤ fuel → wfDict d →
    parseEntries fuel (commaSep (d.map reprEntry) ++ 125 :: rest)
      = some (d, rest) := by
  induction d generalizing fuel with
  | nil => exact fun hne _ _ => absurd rfl hne
  | cons kv d' ih =>
    intro _ hfuel hwf
    obtain ⟨k, v⟩ := kv
    have hwkv := hwf (k, v) (List.mem_cons_self (k, v) d')
    have hwk : wfPrim (PyPrim.str k) := hwkv.1
    have hwv : wfVal v := hwkv.2
    cases fuel with
    | zero => simp at hfuel
    | succ f =>
      cases d' with
      | nil =>
        have hpk := parsePrim_repr (PyPrim.str k)
          (58 :: 32 :: (reprVal v ++ 125 :: rest)) hwk
          (by simp [isDigitCode]) (by simp)
        have hpv := parseVal_repr v (125 :: rest) hwv (by simp [isDigitCode])
          (by simp)
        have happ : commaSep ([(k, v)].map reprEntry) ++ 125 :: rest
            = reprPrim (PyPrim.str k)
                ++ (58 :: 32 :: (reprVal v ++ 125 :: rest)) := by
          simp [commaSep, reprEntry, List.append_assoc]
        rw [happ]
        simp only [parseEntries]
        rw [hpk]
        simp [hpv]
      | cons kv2 d'' =>
        have happ : commaSep (((k, v) :: kv2 :: d'').map reprEntry)
              ++ 125 :: rest
            = reprPrim (PyPrim.str k)
                ++ (58 :: 32 :: (reprVal v ++ (44 :: 32
                  :: (commaSep ((kv2 :: d'').map reprEntry)
                    ++ 125 :: rest)))) := by
          simp [commaSep, reprEntry, List.append_assoc]
        have hpk := parsePrim_repr (PyPrim.str k)
          (58 :: 32 :: (reprVal v ++ (44 :: 32
            :: (commaSep ((kv2 :: d'').map reprEntry) ++ 125 :: rest)))) hwk
          (by simp [isDigitCode]) (by simp)
        have hpv := parseVal_repr v
          (44 :: 32 :: (commaSep ((kv2 :: d'').map reprEntry) ++ 125 :: rest))
          hwv (by simp [isDigitCode]) (by simp)
        have ih2 := ih f (by simp)
          (by simp only [List.length_cons] at hfuel ⊢; omega)
          (fun x hx => hwf x (List.mem_cons_of_mem (k, v) hx))
        rw [happ]
        set D := commaSep ((kv2 :: d'').map reprEntry) with hD
        simp only [parseEntries]
        rw [hpk]
        simp [hpv, ih2]

/-- Claim C2: serializing a configuration dictionary with `str` and
parsing the attribute text back with `ast.literal_eval` yields a mapping
equal to the original dictionary, for every dictionary of well-formed
primitive values — the written file is self-describing. -/
theorem claim_C2 (d : PyDict) (h : wfDict d) :
    literal_eval (strDict d) = some d := by
  cases d with
  | nil =>
    rw [show strDict [] = [123, 125] from by simp [strDict, commaSep]]
    simp [literal_eval]
  | cons kv d' =>
    obtain ⟨k, v⟩ := kv
    have hentne0 : ∀ x ∈ ((k, v) :: d').map reprEntry, x ≠ [] := by
      intro x hx
      obtain ⟨kv', _, rfl⟩ := List.mem_map.mp hx
      simp [reprEntry, reprPrim]
    have hge := commaSep_length_ge (((k, v) :: d').map reprEntry) hentne0
    have hne : commaSep (((k, v) :: d').map reprEntry) ++ [125] ≠ [125] := by
      intro hEq
      have hlen := congrArg List.length hEq
      simp only [List.length_append, List.length_cons, List.length_nil]
        at hlen
      simp only [List.length_map, List.length_cons] at hge
      omega
    have hfuel : ((k, v) :: d').length
        ≤ (commaSep (((k, v) :: d').map reprEntry) ++ [125]).length := by
      simp only [List.length_map, List.length_cons] at hge
      simp only [List.length_append, List.length_cons]
      omega
    have hpe := parseEntries_repr ((k, v) :: d')
      (commaSep (((k, v) :: d').map reprEntry) ++ [125]).length []
      (by simp) hfuel h
    rw [show strDict ((k, v) :: d')
        = 123 :: (commaSep (((k, v) :: d').map reprEntry) ++ [125]) from by
      simp [strDict]]
    set C := commaSep (((k, v) :: d').map reprEntry) with hC
    simp only [List.length_append, List.length_cons, List.length_nil] at hpe
    simp [literal_eval, hne, hpe]

/-- Instantiation of claim C2 on the light dictionary of the S4 spectra
notebook. -/
theorem claim_C2_witness :
    literal_eval (strDict s4_light_dict) = some s4_light_dict :=
  claim_C2 s4_light_dict (by decide)

end EmuS4
